import Mathlib

/-!
Verification of the cryptographic core of the `stealth-address-solana`
repository (files `src/crypto.ts`, `src/sdk.ts`, `src/encoding.ts`).

Byte strings are modelled as `List Nat` (every byte produced by the embedded
code is `< 256`).  The Ed25519 prime-order subgroup is modelled by the
discrete logarithm of its points with respect to the basepoint `B`: a point
is a canonical `Nat` below the group order `L`, point addition is addition
mod `L`, and `BASE.multiply s` is `s % L`.  The external primitives from
`@noble/curves` and `@noble/hashes` (SHA-256, SHA-512, point compression,
decompression, the Edwards-to-Montgomery bridge and X25519) are parameters
of the model, constrained exactly by their documented behaviour; every
theorem below is proved for all instantiations of those parameters, hence
in particular for the real primitives.  A separate byte-level model with
genuine field arithmetic modulo `2^255 - 19` (namespace `Ed`) is used for
the claims about point decompression and rejection.
-/

set_option maxRecDepth 16000

/-- Big-endian byte interpretation.  Mirrors `bytesToBigInt` in
`src/crypto.ts`: `result = (result << 8n) | BigInt(byte)` over the bytes in
order. -/
def bytesToBigInt (bs : List Nat) : Nat :=
  bs.foldl (fun r b => (r <<< 8) ||| b) 0

/-- Little-endian byte interpretation.  Mirrors `bytesToBigIntLE` in
`src/crypto.ts`, which loops from the last index down with
`result = (result << 8n) | BigInt(bytes[i])`. -/
def bytesToBigIntLE (bs : List Nat) : Nat :=
  bs.foldr (fun b r => (r <<< 8) ||| b) 0

/-- Fixed-length little-endian encoding of a value.  Mirrors
`bigIntToBytesLE` in `src/crypto.ts`: `bytes[i] = Number(v & 0xffn); v >>= 8n`
for `i = 0 .. length-1`. -/
def bigIntToBytesLE (v : Nat) : Nat → List Nat
  | 0 => []
  | n + 1 => (v &&& 255) :: bigIntToBytesLE (v >>> 8) n

/-- The clamping performed on the first 32 bytes of a SHA-512 digest:
`h[0] &= 248; h[31] &= 127; h[31] |= 64`.  The same three byte operations
appear verbatim in both `seedToScalar` and `ed25519SeedToX25519Priv` in
`src/crypto.ts` (Ed25519 clamping and X25519 clamping coincide). -/
def clampBytes (h : List Nat) : List Nat :=
  let h1 := h.set 0 ((h.getD 0 0) &&& 248)
  h1.set 31 (((h1.getD 31 0) &&& 127) ||| 64)

/-- Order of the Ed25519 prime-order subgroup (`ed25519.CURVE.n` = `L` in
`src/crypto.ts`). -/
def Lnat : Nat := 2 ^ 252 + 27742317777372353535851937790883648493

/-- Abstract model of the external primitives used by `src/crypto.ts`
(`@noble/hashes` SHA-256/SHA-512 and the `@noble/curves` ed25519/x25519
suite), restricted to the prime-order subgroup in which every honest key
lives.  A point of the subgroup is represented by its canonical discrete
logarithm (a `Nat` below `Lnat`) with respect to the basepoint.

* `compress p` — the canonical compressed 32-byte Ed25519 encoding of the
  point with discrete log `p` (`Point.toRawBytes` / `publicKey.toBytes()`).
* `decompress b` — `Point.fromHex b`, returned as a discrete log; `none`
  models the exception thrown on undecodable input.
* `uenc p` — the 32 little-endian bytes of the Montgomery `u`-coordinate of
  the point with discrete log `p` (the output shape of `ed25519PubToX25519`).
* `xmul k u` — `x25519.scalarMult(k, u)`: the scalar bytes are clamped and
  read little-endian, and the result is the `u`-encoding of the scalar
  multiple, which for subgroup points is again a subgroup point.
* the SHA digests are arbitrary functions producing the documented number
  of bytes.

Scalar multiplication is modelled as total (`s % L` as a discrete log);
noble's `multiply` additionally rejects a scalar that is `0 mod L`, an event
of probability about `2⁻²⁵²` per SHA-256 tweak that the model ignores. -/
structure NobleModel where
  sha512 : List Nat → List Nat
  sha256 : List Nat → List Nat
  compress : Nat → List Nat
  decompress : List Nat → Option Nat
  uenc : Nat → List Nat
  xmul : List Nat → List Nat → List Nat
  sha512_len : ∀ b, (sha512 b).length = 64
  sha512_lt : ∀ b, ∀ x ∈ sha512 b, x < 256
  sha256_len : ∀ b, (sha256 b).length = 32
  sha256_lt : ∀ b, ∀ x ∈ sha256 b, x < 256
  compress_len : ∀ p, (compress p).length = 32
  decompress_compress : ∀ p, p < Lnat → decompress (compress p) = some p
  decompress_lt : ∀ b p, decompress b = some p → p < Lnat
  xmul_uenc : ∀ k p, p < Lnat →
    xmul k (uenc p) = uenc (bytesToBigIntLE (clampBytes k) * p % Lnat)

/-- `StealthMetaAddress` from `src/crypto.ts`: the two public keys, as their
32-byte encodings. -/
structure StealthMetaAddress where
  viewingPubkey : List Nat
  spendingPubkey : List Nat
deriving DecidableEq

/-- `StealthKeys` from `src/crypto.ts`. -/
structure StealthKeys where
  viewingPrivkey : List Nat
  spendingPrivkey : List Nat
  metaAddress : StealthMetaAddress
deriving DecidableEq

/-- `StealthAddressResultInternal` from `src/crypto.ts`. -/
structure StealthAddressResultInternal where
  stealthPubkey : List Nat
  ephemeralPubkey : List Nat
  viewTag : Nat
  ephemeralPrivkey : List Nat
  sharedSecret : List Nat
deriving DecidableEq

/-- A `@solana/web3.js` `Keypair`: a 64-byte secret key whose last 32 bytes
are the public key. -/
structure SolKeypair where
  secretKey : List Nat
deriving DecidableEq

/-- `Keypair.publicKey`: the last 32 bytes of the 64-byte secret key. -/
def SolKeypair.publicKey (k : SolKeypair) : List Nat :=
  k.secretKey.drop 32

/-- `seedToScalar` from `src/crypto.ts`: SHA-512 the seed, take the first 32
bytes, clamp, read little-endian. -/
def seedToScalar (M : NobleModel) (seed : List Nat) : Nat :=
  bytesToBigIntLE (clampBytes ((M.sha512 seed).take 32))

/-- `ed25519SeedToX25519Priv` from `src/crypto.ts`: SHA-512 the seed, take
the first 32 bytes, clamp, return the bytes. -/
def ed25519SeedToX25519Priv (M : NobleModel) (seed : List Nat) : List Nat :=
  clampBytes ((M.sha512 seed).take 32)

/-- `ed25519PubToX25519` from `src/crypto.ts` over the subgroup model:
decompress the point (`ExtendedPoint.fromHex`, `none` = throw), then map its
affine `y` to the Montgomery `u = (1+y)/(1-y)`.  The division throws
(`Fp.inv(0)`) exactly on the identity, which in the subgroup model is the
point with discrete log `0`; on every other subgroup point it returns the
`u`-encoding. -/
def ed25519PubToX25519 (M : NobleModel) (edPub : List Nat) : Option (List Nat) :=
  match M.decompress edPub with
  | none => none
  | some p => if p = 0 then none else some (M.uenc p)

/-- The canonical Ed25519 public key of a 32-byte seed
(`Keypair.generate().publicKey.toBytes()` for the keypair with this seed):
the compressed point whose discrete log is the clamped SHA-512 scalar of the
seed, reduced mod `L`. -/
def pubkeyOfSeed (M : NobleModel) (seed : List Nat) : List Nat :=
  M.compress (seedToScalar M seed % Lnat)

/-- `computeStealthAddressInternal` from `src/crypto.ts`.  The ephemeral
keypair drawn from the CSPRNG is made explicit as the seed argument
`eSeed`.  `none` models the exceptions thrown by `ed25519PubToX25519` and
`Point.fromHex` on invalid meta-address keys. -/
def computeStealthAddressInternal (M : NobleModel)
    (metaAddress : StealthMetaAddress) (eSeed : List Nat) :
    Option StealthAddressResultInternal :=
  let ephemeralPubkey := pubkeyOfSeed M eSeed
  let ephemeralX25519Priv := ed25519SeedToX25519Priv M eSeed
  match ed25519PubToX25519 M metaAddress.viewingPubkey with
  | none => none
  | some viewingX25519Pub =>
    let sharedSecret := M.xmul ephemeralX25519Priv viewingX25519Pub
    let tweak := M.sha256 sharedSecret
    let viewTag := tweak.headD 0
    let tweakScalar := bytesToBigInt tweak % Lnat
    let tweakPoint := tweakScalar % Lnat
    match M.decompress metaAddress.spendingPubkey with
    | none => none
    | some spendingPoint =>
      let stealthPoint := (spendingPoint + tweakPoint) % Lnat
      some { stealthPubkey := M.compress stealthPoint
             ephemeralPubkey := ephemeralPubkey
             viewTag := viewTag
             ephemeralPrivkey := eSeed
             sharedSecret := sharedSecret }

/-- `Keypair.fromSecretKey` of `@solana/web3.js` with its default options
(validation on, as since v1.31.0): reject a secret key that is not 64 bytes
(`bad secret key size`), then re-derive the Ed25519 public key from the first
32 bytes *treated as a seed* and throw `provided secretKey is invalid`
(modelled as `none`) unless it equals the stored last 32 bytes. -/
def keypairFromSecretKey (M : NobleModel) (secretKey : List Nat) :
    Option SolKeypair :=
  if secretKey.length ≠ 64 then none
  else if secretKey.drop 32 ≠ pubkeyOfSeed M (secretKey.take 32) then none
  else some { secretKey := secretKey }

/-- `createKeypairFromScalar` from `src/crypto.ts`: build the 64-byte layout
`[le_bytes(scalar) ∥ pubkey]` and hand it to `Keypair.fromSecretKey` — with
no `skipValidation` option, so the library's seed-derivation check runs on
the scalar bytes. -/
def createKeypairFromScalar (M : NobleModel) (scalar : Nat)
    (pubkey : List Nat) : Option SolKeypair :=
  keypairFromSecretKey M (bigIntToBytesLE scalar 32 ++ pubkey)

/-- `deriveStealthKeypair` from `src/crypto.ts`.  `none` models the
exceptions thrown by `ed25519PubToX25519` on an invalid ephemeral key and by
the `Keypair.fromSecretKey` validation inside `createKeypairFromScalar`. -/
def deriveStealthKeypair (M : NobleModel)
    (viewingPrivkey spendingPrivkey ephemeralPubkey : List Nat) :
    Option SolKeypair :=
  let viewingX25519Priv := ed25519SeedToX25519Priv M viewingPrivkey
  match ed25519PubToX25519 M ephemeralPubkey with
  | none => none
  | some ephemeralX25519Pub =>
    let sharedSecret := M.xmul viewingX25519Priv ephemeralX25519Pub
    let tweak := M.sha256 sharedSecret
    let tweakScalar := bytesToBigInt tweak % Lnat
    let spendingScalar := seedToScalar M spendingPrivkey
    let stealthScalar := (spendingScalar + tweakScalar) % Lnat
    let stealthPubkey := M.compress (stealthScalar % Lnat)
    createKeypairFromScalar M stealthScalar stealthPubkey

/-- Steps 1–5 of `deriveStealthKeypair`: the scalar-form stealth private key
`(s_spend + t) mod L` the code computes before packaging it as a `Keypair`. -/
def deriveStealthScalar (M : NobleModel)
    (viewingPrivkey spendingPrivkey ephemeralPubkey : List Nat) : Option Nat :=
  let viewingX25519Priv := ed25519SeedToX25519Priv M viewingPrivkey
  match ed25519PubToX25519 M ephemeralPubkey with
  | none => none
  | some ephemeralX25519Pub =>
    let sharedSecret := M.xmul viewingX25519Priv ephemeralX25519Pub
    let tweak := M.sha256 sharedSecret
    let tweakScalar := bytesToBigInt tweak % Lnat
    some ((seedToScalar M spendingPrivkey + tweakScalar) % Lnat)

/-- `checkViewTag` from `src/crypto.ts`: recompute the shared secret and
compare the first byte of its SHA-256 against the announced view tag
(`tweak[0] === viewTag`; the tag is a JavaScript number, modelled as `Int`). -/
def checkViewTag (M : NobleModel)
    (viewingPrivkey ephemeralPubkey : List Nat) (viewTag : Int) : Option Bool :=
  let viewingX25519Priv := ed25519SeedToX25519Priv M viewingPrivkey
  match ed25519PubToX25519 M ephemeralPubkey with
  | none => none
  | some ephemeralX25519Pub =>
    let sharedSecret := M.xmul viewingX25519Priv ephemeralX25519Pub
    let tweak := M.sha256 sharedSecret
    some (((tweak.headD 0 : Nat) : Int) == viewTag)

/-- `computeExpectedStealthAddress` from `src/crypto.ts`. -/
def computeExpectedStealthAddress (M : NobleModel)
    (viewingPrivkey spendingPubkey ephemeralPubkey : List Nat) :
    Option (List Nat) :=
  let viewingX25519Priv := ed25519SeedToX25519Priv M viewingPrivkey
  match ed25519PubToX25519 M ephemeralPubkey with
  | none => none
  | some ephemeralX25519Pub =>
    let sharedSecret := M.xmul viewingX25519Priv ephemeralX25519Pub
    let tweak := M.sha256 sharedSecret
    let tweakScalar := bytesToBigInt tweak % Lnat
    let tweakPoint := tweakScalar % Lnat
    match M.decompress spendingPubkey with
    | none => none
    | some spendingPoint =>
      some (M.compress ((spendingPoint + tweakPoint) % Lnat))

/-- `ed25519.getPublicKey` of `@noble/curves` on a 32-byte seed: identical
derivation to `pubkeyOfSeed` (clamped SHA-512 scalar times the basepoint). -/
def edPubkeyOfSeed (M : NobleModel) (seed : List Nat) : List Nat :=
  M.compress (seedToScalar M seed % Lnat)

/-- `ed25519.sign(message, seed)` of `@noble/curves`: derive the scalar `a`
and the prefix from SHA-512 of the seed, nonce `r` = SHA-512(prefix ∥ msg)
read little-endian mod `L`, challenge `k` = SHA-512(R ∥ A ∥ msg) read
little-endian mod `L`, and `s = (r + k·a) mod L`; the signature is the
32-byte compressed `R` followed by the 32 little-endian bytes of `s`. -/
def nobleSign (M : NobleModel) (message seed : List Nat) : List Nat :=
  let h := M.sha512 seed
  let a := bytesToBigIntLE (clampBytes (h.take 32)) % Lnat
  let pfx := h.drop 32
  let pointBytesA := M.compress a
  let r := bytesToBigIntLE (M.sha512 (pfx ++ message)) % Lnat
  let pointBytesR := M.compress r
  let k := bytesToBigIntLE (M.sha512 (pointBytesR ++ pointBytesA ++ message)) % Lnat
  let s := (r + k * a) % Lnat
  pointBytesR ++ bigIntToBytesLE s 32

/-- The standard Ed25519 verification rule (`ed25519.verify` of
`@noble/curves`) keyed by `pubBytes`: parse `R` and `A`, reject a
non-canonical `s`, and check `[s]B = R + [k]A` with
`k = SHA-512(R ∥ A ∥ msg) mod L`. -/
def nobleVerify (M : NobleModel) (signature message pubBytes : List Nat) : Bool :=
  match M.decompress (signature.take 32), M.decompress pubBytes with
  | some pointR, some pointA =>
    let s := bytesToBigIntLE (signature.drop 32)
    if s ≥ Lnat then false
    else
      let k := bytesToBigIntLE (M.sha512 (signature.take 32 ++ pubBytes ++ message)) % Lnat
      decide (s % Lnat = (pointR + k * pointA % Lnat) % Lnat)
  | _, _ => false

/-- `signWithScalar` from `src/crypto.ts`.  The code builds the 64-byte
extended key `[scalarBytes ∥ prefix]` and then calls
`ed25519.sign(message, extendedKey.slice(0, 32))` — that is, it hands the
scalar bytes to the *seed-based* signer, which re-hashes and re-clamps
them. -/
def signWithScalar (M : NobleModel) (message : List Nat) (scalar : Nat)
    (pubkey : List Nat) : List Nat :=
  let scalarBytes := bigIntToBytesLE scalar 32
  let pfx := (M.sha512 scalarBytes).drop 32
  let extendedKey := scalarBytes ++ pfx
  nobleSign M message (extendedKey.take 32)

/-- `StealthAnnouncement` from `src/sdk.ts`: ephemeral public key bytes, the
view tag (a JavaScript number, modelled as `Int` since the decoder performs
no range check), and the stealth address (a `PublicKey`, modelled by its 32
bytes). -/
structure StealthAnnouncement where
  ephemeralPubkey : List Nat
  viewTag : Int
  stealthAddress : List Nat
deriving DecidableEq

/-- `DiscoveredPayment` from `src/sdk.ts`. -/
structure DiscoveredPayment where
  stealthAddress : List Nat
  ephemeralPubkey : List Nat
  balance : Int
  keypair : SolKeypair
deriving DecidableEq

/-- `StealthScanner.scanAnnouncements` from `src/sdk.ts`.  The chain query
`connection.getBalance` is the explicit parameter `balanceOf`.  Per
announcement: view-tag filter (`continue` on mismatch), expected-address
recomputation, silent `continue` when it differs from the claimed address,
balance query, and emission of a discovered payment with the derived keypair
when the balance is positive.  `none` models an uncaught exception escaping
the loop (the function has no try/catch). -/
def scanAnnouncements (M : NobleModel) (keys : StealthKeys)
    (balanceOf : List Nat → Int) :
    List StealthAnnouncement → Option (List DiscoveredPayment)
  | [] => some []
  | a :: rest => do
    let tagOk ← checkViewTag M keys.viewingPrivkey a.ephemeralPubkey a.viewTag
    if !tagOk then
      scanAnnouncements M keys balanceOf rest
    else do
      let expectedAddress ← computeExpectedStealthAddress M keys.viewingPrivkey
        keys.metaAddress.spendingPubkey a.ephemeralPubkey
      if expectedAddress ≠ a.stealthAddress then
        scanAnnouncements M keys balanceOf rest
      else
        let balance := balanceOf a.stealthAddress
        if balance > 0 then do
          let kp ← deriveStealthKeypair M keys.viewingPrivkey
            keys.spendingPrivkey a.ephemeralPubkey
          let payment : DiscoveredPayment :=
            { stealthAddress := a.stealthAddress
              ephemeralPubkey := a.ephemeralPubkey
              balance := balance
              keypair := kp }
          (payment :: ·) <$> scanAnnouncements M keys balanceOf rest
        else
          scanAnnouncements M keys balanceOf rest

/-- Abstract model of the `bs58` dependency (Bitcoin-alphabet Base58).
`decode_encode` is its round-trip contract on byte arrays; decoding failure
(`none`) models the exception thrown on a malformed string. -/
structure B58 where
  b58encode : List Nat → List Char
  b58decode : List Char → Option (List Nat)
  decode_encode : ∀ bs, (∀ x ∈ bs, x < 256) → b58decode (b58encode bs) = some bs

/-- The literal `st:sol:` meta-address header (`PREFIX` in
`src/encoding.ts`). -/
def stSol : List Char := "st:sol:".toList

/-- Error values thrown by `src/encoding.ts` (all surfaced as the spec's
`InvalidEncoding` kind). -/
inductive EncErr
  | badViewingLen
  | badSpendingLen
  | badHeader
  | badBase58
  | badLength
deriving DecidableEq

/-- `encodeMetaAddress` from `src/encoding.ts`: validate both key lengths,
concatenate `viewingPubkey ∥ spendingPubkey` (64 bytes) and emit
`st:sol:` + Base58 of the concatenation. -/
def encodeMetaAddress (E : B58) (meta : StealthMetaAddress) :
    Except EncErr (List Char) :=
  if meta.viewingPubkey.length ≠ 32 then .error .badViewingLen
  else if meta.spendingPubkey.length ≠ 32 then .error .badSpendingLen
  else .ok (stSol ++ E.b58encode (meta.viewingPubkey ++ meta.spendingPubkey))

/-- `decodeMetaAddress` from `src/encoding.ts`: require the `st:sol:`
header, Base58-decode the remainder, require 64 decoded bytes, split into
the two 32-byte keys (`slice(0, 32)` / `slice(32)`). -/
def decodeMetaAddress (E : B58) (encoded : List Char) :
    Except EncErr StealthMetaAddress :=
  if ¬ stSol.isPrefixOf encoded then .error .badHeader
  else
    match E.b58decode (encoded.drop stSol.length) with
    | none => .error .badBase58
    | some combined =>
      if combined.length ≠ 64 then .error .badLength
      else .ok { viewingPubkey := combined.take 32, spendingPubkey := combined.drop 32 }

/-- JavaScript JSON values, as produced by `JSON.parse`. -/
inductive Json
  | num : Int → Json
  | str : List Char → Json
  | jbool : Bool → Json
  | jnull : Json
  | arr : List Json → Json
  | obj : List (List Char × Json) → Json

/-- First value bound to a key in a JSON object (JavaScript property
lookup). -/
def jLookup : List (List Char × Json) → List Char → Option Json
  | [], _ => none
  | (k, v) :: rest, key => if k = key then some v else jLookup rest key

/-- JavaScript property access `j.key`: `undefined` (`none`) on objects
without the key and on non-object non-null values, a thrown `TypeError`
(`.error`) on `null`. -/
def jGet : Json → List Char → Except Unit (Option Json)
  | .jnull, _ => .error ()
  | .obj fields, key => .ok (jLookup fields key)
  | _, _ => .ok none

/-- Abstract model of `JSON.stringify` / `JSON.parse` over an arbitrary wire
type `W`, with the round-trip contract that parsing a stringified value
returns that value (`none` models the `SyntaxError` thrown on non-JSON
input). -/
structure JsonWire (W : Type) where
  stringify : Json → W
  parse : W → Option Json
  parse_stringify : ∀ v, parse (stringify v) = some v

/-- `serializeAnnouncement` from `src/sdk.ts`:
`JSON.stringify({v: 1, t: 'STEALTH', e: bs58(ephemeralPubkey), vt: viewTag,
s: stealthAddress.toBase58()})` (insertion order preserved). -/
def serializeAnnouncement {W : Type} (J : JsonWire W) (E : B58)
    (a : StealthAnnouncement) : W :=
  J.stringify (.obj
    [("v".toList, .num 1),
     ("t".toList, .str "STEALTH".toList),
     ("e".toList, .str (E.b58encode a.ephemeralPubkey)),
     ("vt".toList, .num a.viewTag),
     ("s".toList, .str (E.b58encode a.stealthAddress))])

/-- The body of the `try` block of `deserializeAnnouncement` in
`src/sdk.ts`: `JSON.parse`, the `t !== 'STEALTH'` soft rejection
(`.ok none`), then the field reads in object-literal order —
`bs58.decode(parsed.e)` (throws unless a decodable string), `parsed.vt`
copied with **no validation** (non-numeric values are collapsed to `0` by
the model; no verified claim depends on that corner), and
`new PublicKey(parsed.s)` (throws unless a Base58 string of 32 bytes).
`.error` models a thrown exception. -/
def deserializeAnnouncementBody {W : Type} (J : JsonWire W) (E : B58)
    (data : W) : Except Unit (Option StealthAnnouncement) :=
  match J.parse data with
  | none => .error ()
  | some parsed =>
    match jGet parsed "t".toList with
    | .error e => .error e
    | .ok tagVal =>
      match tagVal with
      | some (.str t) =>
        if t ≠ "STEALTH".toList then .ok none
        else
          match jGet parsed "e".toList with
          | .error e => .error e
          | .ok eVal =>
            match eVal with
            | some (.str estr) =>
              match E.b58decode estr with
              | some eBytes =>
                match jGet parsed "vt".toList with
                | .error e => .error e
                | .ok vtVal =>
                  let viewTag : Int := match vtVal with
                    | some (.num n) => n
                    | _ => 0
                  match jGet parsed "s".toList with
                  | .error e => .error e
                  | .ok sVal =>
                    match sVal with
                    | some (.str sstr) =>
                      match E.b58decode sstr with
                      | some sBytes =>
                        if sBytes.length = 32 then
                          .ok (some ⟨eBytes, viewTag, sBytes⟩)
                        else .error ()
                      | none => .error ()
                    | _ => .error ()
              | none => .error ()
            | _ => .error ()
      | _ => .ok none

/-- `deserializeAnnouncement` from `src/sdk.ts`: the whole body runs inside
`try { ... } catch { return null; }`, so every thrown exception becomes
`null`. -/
def deserializeAnnouncement {W : Type} (J : JsonWire W) (E : B58) (data : W) :
    Option StealthAnnouncement :=
  match deserializeAnnouncementBody J E data with
  | .ok r => r
  | .error _ => none

/-- Length of the fixed-length little-endian encoding. -/
def bigIntToBytesLE_length : ∀ (n v : Nat), (bigIntToBytesLE v n).length = n := by
  intro n
  induction n with
  | zero => intro v; rfl
  | succ n ih => intro v; simp [bigIntToBytesLE, ih]

/-- Every byte of the fixed-length little-endian encoding is below 256. -/
def bigIntToBytesLE_lt : ∀ (n v : Nat), ∀ x ∈ bigIntToBytesLE v n, x < 256 := by
  intro n
  induction n with
  | zero => intro v x hx; simp [bigIntToBytesLE] at hx
  | succ n ih =>
    intro v x hx
    simp only [bigIntToBytesLE, List.mem_cons] at hx
    rcases hx with h | h
    · subst h
      have : v &&& 255 = v % 256 := by
        have := Nat.and_pow_two_sub_one_eq_mod v 8
        norm_num at this
        omega
      omega
    · exact ih _ x h

/-- Little-endian decode inverts the fixed-length little-endian encode. -/
def bytesToBigIntLE_bigIntToBytesLE :
    ∀ (n v : Nat), v < 2 ^ (8 * n) → bytesToBigIntLE (bigIntToBytesLE v n) = v := by
  intro n
  induction n with
  | zero =>
    intro v hv
    have : v = 0 := by omega
    subst this
    rfl
  | succ n ih =>
    intro v hv
    have hpow : 2 ^ (8 * (n + 1)) = 2 ^ (8 * n) * 256 := by
      rw [Nat.mul_succ, pow_add]
      norm_num
    have h8 : v >>> 8 = v / 256 := by
      rw [Nat.shiftRight_eq_div_pow]
    have hdiv : v / 256 < 2 ^ (8 * n) := by
      rw [hpow] at hv
      omega
    show bytesToBigIntLE ((v &&& 255) :: bigIntToBytesLE (v >>> 8) n) = v
    have hrec : bytesToBigIntLE (bigIntToBytesLE (v >>> 8) n) = v / 256 := by
      rw [h8]; exact ih _ hdiv
    show (bytesToBigIntLE (bigIntToBytesLE (v >>> 8) n) <<< 8) ||| (v &&& 255) = v
    rw [hrec, Nat.shiftLeft_eq]
    have hand : v &&& 255 = v % 256 := by
      have := Nat.and_pow_two_sub_one_eq_mod v 8
      norm_num at this
      omega
    rw [hand, Nat.mul_comm (v / 256) (2 ^ 8)]
    rw [← Nat.mul_add_lt_is_or (i := 8) (b := v % 256) (by omega) (v / 256)]
    omega

/-- The subgroup order is positive. -/
def Lnat_pos : 0 < Lnat := by norm_num [Lnat]

/-- The subgroup order fits in 32 bytes. -/
def Lnat_lt_pow : Lnat < 2 ^ (8 * 32) := by norm_num [Lnat]

/-- Concrete Base58 instance used by the evaluation witnesses: an injective
character encoding satisfying the round-trip contract of `B58`. -/
def cB58 : B58 where
  b58encode := fun bs => bs.map Char.ofNat
  b58decode := fun cs => some (cs.map Char.toNat)
  decode_encode := by
    intro bs h
    simp only [List.map_map, Option.some.injEq]
    have hchar : ∀ x ∈ bs, (Char.toNat ∘ Char.ofNat) x = x := by
      intro x hx
      have hv : x.isValidChar := Or.inl (by have := h x hx; omega)
      simp only [Function.comp_apply]
      rw [Char.ofNat, dif_pos hv]
      rfl
    rw [List.map_congr_left hchar]
    simp

/-- Concrete JSON wire instance used by the evaluation witnesses: the wire
type is the JSON value itself. -/
def cWire : JsonWire Json where
  stringify := id
  parse := some
  parse_stringify := fun _ => rfl

/-- Concrete instance of the curve/hash model used by the evaluation
witnesses: points are encoded by their 32 little-endian bytes and the two
digests are fixed byte strings of the documented lengths. -/
def cModel : NobleModel where
  sha512 := fun _ => List.range 64
  sha256 := fun _ => List.range 32
  compress := fun p => bigIntToBytesLE p 32
  decompress := fun b => some (bytesToBigIntLE b % Lnat)
  uenc := fun p => bigIntToBytesLE p 32
  xmul := fun k u =>
    bigIntToBytesLE
      (bytesToBigIntLE (clampBytes k) * (bytesToBigIntLE u % Lnat) % Lnat) 32
  sha512_len := fun _ => by simp
  sha512_lt := fun _ x hx => by
    have := List.mem_range.mp hx
    omega
  sha256_len := fun _ => by simp
  sha256_lt := fun _ x hx => by
    have := List.mem_range.mp hx
    omega
  compress_len := fun p => bigIntToBytesLE_length 32 p
  decompress_compress := by
    intro p hp
    have h1 : bytesToBigIntLE (bigIntToBytesLE p 32) = p :=
      bytesToBigIntLE_bigIntToBytesLE 32 p (lt_trans hp Lnat_lt_pow)
    simp only [h1, Option.some.injEq]
    exact Nat.mod_eq_of_lt hp
  decompress_lt := by
    intro b p h
    simp only [Option.some.injEq] at h
    subst h
    exact Nat.mod_lt _ Lnat_pos
  xmul_uenc := by
    intro k p hp
    have h1 : bytesToBigIntLE (bigIntToBytesLE p 32) = p :=
      bytesToBigIntLE_bigIntToBytesLE 32 p (lt_trans hp Lnat_lt_pow)
    simp only [h1, Nat.mod_eq_of_lt hp]

namespace Ed

/-- The Curve25519 base field prime `p = 2^255 - 19`. -/
def P : Nat := 2 ^ 255 - 19

/-- The Edwards `d` coefficient of ed25519 (`ed25519.CURVE.d`). -/
def dCoeff : Nat :=
  37095705934669439343138083508754565189542113879843219016388785533085940283555

/-- The square root of −1 used by noble's `uvRatio` (`ED25519_SQRT_M1`). -/
def sqrtM1 : Nat :=
  19681161376707505956807079304988542015446066515923890162744021073123829784752

/-- Fuel-driven modular exponentiation by repeated squaring (kernel-reducible
on concrete inputs). -/
def powModAux : Nat → Nat → Nat → Nat → Nat
  | 0, _, _, m => 1 % m
  | fuel + 1, b, e, m =>
    if e = 0 then 1 % m
    else
      let r := powModAux fuel (b * b % m) (e / 2) m
      if e % 2 = 1 then r * b % m else r

/-- Modular exponentiation; 256 squarings cover every exponent below
`2^256`. -/
def powMod (b e m : Nat) : Nat := powModAux 256 (b % m) e m

/-- Field inverse modulo `P` via Fermat; extensionally equal on nonzero
field elements to the extended-Euclid `Fp.inv` of noble (whose
divide-by-zero throw is modelled at the call sites). -/
def finv (x : Nat) : Nat := powMod x (P - 2) P

/-- Noble's `uvRatio(u, v)` for ed25519: computes a candidate square root of
`u/v` via `(u·v³)·(u·v⁷)^((p−5)/8)`, selects the root (multiplying by
`√−1` when needed), normalizes it to the non-negative representative, and
reports validity. -/
def uvRatio (u v : Nat) : Bool × Nat :=
  let v3 := v * v % P * v % P
  let v7 := v3 * v3 % P * v % P
  let pw := powMod (u * v7 % P) ((P - 5) / 8) P
  let x0 := u * v3 % P * pw % P
  let vx2 := v * x0 % P * x0 % P
  let useRoot1 := vx2 = u
  let useRoot2 := vx2 = (P - u) % P
  let noRoot := vx2 = (P - u * sqrtM1 % P) % P
  let x1 := if useRoot2 ∨ noRoot then x0 * sqrtM1 % P else x0
  let x2 := if x1 % 2 = 1 then (P - x1) % P else x1
  (decide (useRoot1 ∨ useRoot2), x2)

/-- `ed25519.ExtendedPoint.fromHex` of `@noble/curves` (strict mode,
`zip215 = false`), at the byte level: split off the sign bit, read `y`
little-endian, reject non-canonical `y ≥ P`, solve
`x² = (y² − 1)/(d·y² + 1)` with the `uvRatio` square-root ladder, reject
non-residues, reject `x = 0` with odd sign, and adjust the sign of `x`.
Returns the affine point `(x, y)`. -/
def decompressEd (bytes : List Nat) : Option (Nat × Nat) :=
  if bytes.length ≠ 32 then none
  else
    let lastByte := bytes.getD 31 0
    let sgn : Bool := lastByte &&& 128 != 0
    let y := bytesToBigIntLE (bytes.set 31 (lastByte &&& 127))
    if P ≤ y then none
    else
      let y2 := y * y % P
      match uvRatio ((y2 + P - 1) % P) ((dCoeff * y2 + 1) % P) with
      | (isValid, xv) =>
        if ¬ isValid then none
        else if xv = 0 ∧ sgn then none
        else
          let isXOdd : Bool := xv % 2 == 1
          some ((if sgn != isXOdd then (P - xv) % P else xv), y)

/-- `ed25519PubToX25519` from `src/crypto.ts` at the byte level:
`ExtendedPoint.fromHex`, then `u = (1 + y)·(1 − y)⁻¹ (mod p)` emitted as 32
little-endian bytes; `Fp.inv` throws exactly when `1 − y ≡ 0`. -/
def ed25519PubToX25519Impl (edPub : List Nat) : Option (List Nat) :=
  match decompressEd edPub with
  | none => none
  | some (_, y) =>
    let num := (1 + y) % P
    let den := (1 + P - y) % P
    if den = 0 then none
    else some (bigIntToBytesLE (num * finv den % P) 32)

/-- Affine twisted-Edwards addition on ed25519 (`a = −1`, complete
formulas), used to state the order of concrete points. -/
def edAdd : Nat × Nat → Nat × Nat → Nat × Nat
  | (x1, y1), (x2, y2) =>
    let t := dCoeff * x1 % P * x2 % P * y1 % P * y2 % P
    let x3 := (x1 * y2 % P + y1 * x2 % P) % P * finv ((1 + t) % P) % P
    let y3 := (y1 * y2 % P + x1 * x2 % P) % P * finv ((1 + P - t) % P) % P
    (x3, y3)

end Ed

/-- Steps 1–2 of `deriveStealthKeypair` (also the body of `checkViewTag`):
the X25519 shared secret the receiver computes from a viewing seed and an
ephemeral public key; `none` when the ephemeral key does not convert. -/
def sharedSecretOf (M : NobleModel) (viewingPrivkey ephemeralPubkey : List Nat) :
    Option (List Nat) :=
  (ed25519PubToX25519 M ephemeralPubkey).map
    fun ephemeralX25519Pub =>
      M.xmul (ed25519SeedToX25519Priv M viewingPrivkey) ephemeralX25519Pub

theorem bytesToBigIntLE_cons (b : Nat) (t : List Nat) :
    bytesToBigIntLE (b :: t) = (bytesToBigIntLE t <<< 8) ||| b := rfl

theorem bytesToBigIntLE_cons_lt (b : Nat) (t : List Nat) (hb : b < 256) :
    bytesToBigIntLE (b :: t) = 256 * bytesToBigIntLE t + b := by
  rw [bytesToBigIntLE_cons, Nat.shiftLeft_eq, Nat.mul_comm (bytesToBigIntLE t) (2 ^ 8),
    ← Nat.mul_add_lt_is_or (i := 8) hb (bytesToBigIntLE t)]

theorem bytesToBigIntLE_lt_pow (bs : List Nat) (h : ∀ x ∈ bs, x < 256) :
    bytesToBigIntLE bs < 256 ^ bs.length := by
  induction bs with
  | nil => simp [bytesToBigIntLE]
  | cons b t ih =>
    rw [bytesToBigIntLE_cons_lt b t (h b (by simp))]
    have ht := ih fun x hx => h x (List.mem_cons_of_mem _ hx)
    have hb := h b (by simp)
    simp only [List.length_cons, pow_succ]
    omega

theorem bytesToBigIntLE_append (xs ys : List Nat) (h : ∀ x ∈ xs, x < 256) :
    bytesToBigIntLE (xs ++ ys) =
      bytesToBigIntLE xs + 256 ^ xs.length * bytesToBigIntLE ys := by
  induction xs with
  | nil => simp [bytesToBigIntLE]
  | cons b t ih =>
    rw [List.cons_append, bytesToBigIntLE_cons_lt b _ (h b (by simp)),
      bytesToBigIntLE_cons_lt b t (h b (by simp)),
      ih fun x hx => h x (List.mem_cons_of_mem _ hx)]
    simp only [List.length_cons, pow_succ]
    ring

theorem bytesToBigIntLE_singleton (v : Nat) : bytesToBigIntLE [v] = v := by
  rw [bytesToBigIntLE_cons]
  show (0 <<< 8) ||| v = v
  simp

theorem clampBytes_cons (b0 : Nat) (t : List Nat) :
    clampBytes (b0 :: t) =
      (b0 &&& 248) :: t.set 30 ((t.getD 30 0 &&& 127) ||| 64) := rfl

theorem clampBytes_decomp (b0 : Nat) (t : List Nat) (ht : t.length = 31) :
    clampBytes (b0 :: t) =
      (b0 &&& 248) :: (t.take 30 ++ [(t.getD 30 0 &&& 127) ||| 64]) := by
  rw [clampBytes_cons, List.set_eq_take_append_cons_drop, if_pos (by omega),
    List.drop_eq_nil_of_le (by omega)]

theorem and248_mod8 (x : Nat) (h : x < 256) : (x &&& 248) % 8 = 0 := by
  have hall : ∀ z : Fin 256, (z.val &&& 248) % 8 = 0 := by decide
  exact hall ⟨x, h⟩

theorem clampLast_range (x : Nat) (h : x < 256) :
    64 ≤ (x &&& 127) ||| 64 ∧ (x &&& 127) ||| 64 ≤ 127 := by
  have hall : ∀ z : Fin 256, 64 ≤ (z.val &&& 127) ||| 64 ∧ (z.val &&& 127) ||| 64 ≤ 127 := by
    decide
  exact hall ⟨x, h⟩

theorem clampLast_idem (w : Nat) :
    (((w &&& 127) ||| 64) &&& 127) ||| 64 = (w &&& 127) ||| 64 := by
  rw [Nat.and_distrib_right, Nat.and_assoc, Nat.and_self,
    (by decide : (64 : Nat) &&& 127 = 64), Nat.lor_assoc,
    (by decide : (64 : Nat) ||| 64 = 64)]

theorem clamped_val_range (h : List Nat) (hl : h.length = 32)
    (hb : ∀ x ∈ h, x < 256) :
    2 ^ 254 ≤ bytesToBigIntLE (clampBytes h) ∧
      bytesToBigIntLE (clampBytes h) < 2 ^ 255 ∧
      bytesToBigIntLE (clampBytes h) % 8 = 0 := by
  obtain ⟨b0, t, rfl⟩ : ∃ b0 t, h = b0 :: t := by
    cases h with
    | nil => simp at hl
    | cons a t => exact ⟨a, t, rfl⟩
  have ht : t.length = 31 := by simpa using hl
  have hb0 : b0 < 256 := hb b0 (by simp)
  have hbt : ∀ x ∈ t, x < 256 := fun x hx => hb x (List.mem_cons_of_mem _ hx)
  have h30 : t.getD 30 0 < 256 := by
    have h30lt : 30 < t.length := by omega
    rw [List.getD_eq_getElem?_getD, List.getElem?_eq_getElem h30lt]
    exact hbt _ (List.getElem_mem h30lt)
  have hlast := clampLast_range (t.getD 30 0) h30
  have hx0 : b0 &&& 248 < 256 := lt_of_le_of_lt Nat.and_le_left hb0
  have hx0m : (b0 &&& 248) % 8 = 0 := and248_mod8 b0 hb0
  have htake : (t.take 30).length = 30 := by simp [ht]
  have hA : bytesToBigIntLE (t.take 30) < 256 ^ 30 := by
    have := bytesToBigIntLE_lt_pow (t.take 30)
      fun x hx => hbt x (List.mem_of_mem_take hx)
    rwa [htake] at this
  rw [clampBytes_decomp b0 t ht, bytesToBigIntLE_cons_lt _ _ hx0,
    bytesToBigIntLE_append (t.take 30) _ fun x hx => hbt x (List.mem_of_mem_take hx),
    bytesToBigIntLE_singleton, htake]
  have e30 : (256 : Nat) ^ 30 = 2 ^ 240 := by norm_num
  rw [e30] at hA ⊢
  set v := (t.getD 30 0 &&& 127) ||| 64
  have e1 : (2 : Nat) ^ 240 = 1766847064778384329583297500742918515827483896875618958121606201292619776 := by
    norm_num
  have e2 : (2 : Nat) ^ 254 = 28948022309329048855892746252171976963317496166410141009864396001978282409984 := by
    norm_num
  have e3 : (2 : Nat) ^ 255 = 57896044618658097711785492504343953926634992332820282019728792003956564819968 := by
    norm_num
  rw [e1] at hA ⊢
  rw [e2, e3]
  omega

theorem clamped_mod_ne_zero (h : List Nat) (hl : h.length = 32)
    (hb : ∀ x ∈ h, x < 256) :
    bytesToBigIntLE (clampBytes h) % Lnat ≠ 0 := by
  obtain ⟨h1, h2, h3⟩ := clamped_val_range h hl hb
  intro h0
  obtain ⟨k, hk⟩ := Nat.dvd_of_mod_eq_zero h0
  have hL : Lnat = 7237005577332262213973186563042994240857116359379907606001950938285454250989 := by
    norm_num [Lnat]
  rw [hk, hL] at h1 h2 h3
  have hk4 : 4 ≤ k := by nlinarith
  have hk7 : k ≤ 7 := by nlinarith
  interval_cases k <;> omega

theorem sha512_take_length (M : NobleModel) (seed : List Nat) :
    ((M.sha512 seed).take 32).length = 32 := by
  simp [M.sha512_len seed]

theorem seedToScalar_mod_ne_zero (M : NobleModel) (seed : List Nat) :
    seedToScalar M seed % Lnat ≠ 0 := by
  unfold seedToScalar
  exact clamped_mod_ne_zero _ (sha512_take_length M seed)
    fun x hx => M.sha512_lt seed x (List.mem_of_mem_take hx)

theorem ed25519PubToX25519_pubkeyOfSeed (M : NobleModel) (seed : List Nat) :
    ed25519PubToX25519 M (pubkeyOfSeed M seed) =
      some (M.uenc (seedToScalar M seed % Lnat)) := by
  unfold ed25519PubToX25519 pubkeyOfSeed
  rw [M.decompress_compress _ (Nat.mod_lt _ Lnat_pos)]
  simp [seedToScalar_mod_ne_zero M seed]

theorem clampBytes_idem (h : List Nat) (hl : h.length = 32) :
    clampBytes (clampBytes h) = clampBytes h := by
  obtain ⟨b0, t, rfl⟩ : ∃ b0 t, h = b0 :: t := by
    cases h with
    | nil => simp at hl
    | cons a t => exact ⟨a, t, rfl⟩
  have ht : t.length = 31 := by simpa using hl
  simp only [clampBytes_cons]
  have hg : (t.set 30 ((t.getD 30 0 &&& 127) ||| 64)).getD 30 0
      = (t.getD 30 0 &&& 127) ||| 64 := by
    rw [List.getD_eq_getElem?_getD, List.getElem?_set_self (by omega)]
    rfl
  rw [hg, Nat.and_assoc, Nat.and_self, clampLast_idem, List.set_set]

theorem mul_mod_absorb (a b : Nat) : a * (b % Lnat) % Lnat = a * b % Lnat := by
  conv_lhs => rw [Nat.mul_mod]
  conv_rhs => rw [Nat.mul_mod]
  rw [Nat.mod_mod_of_dvd b dvd_rfl]

theorem ecdh_agree (M : NobleModel) (vSeed eSeed : List Nat) :
    M.xmul (ed25519SeedToX25519Priv M eSeed) (M.uenc (seedToScalar M vSeed % Lnat)) =
      M.xmul (ed25519SeedToX25519Priv M vSeed) (M.uenc (seedToScalar M eSeed % Lnat)) := by
  rw [M.xmul_uenc _ _ (Nat.mod_lt _ Lnat_pos), M.xmul_uenc _ _ (Nat.mod_lt _ Lnat_pos)]
  unfold ed25519SeedToX25519Priv
  rw [clampBytes_idem _ (sha512_take_length M eSeed),
    clampBytes_idem _ (sha512_take_length M vSeed)]
  show M.uenc (seedToScalar M eSeed * (seedToScalar M vSeed % Lnat) % Lnat)
      = M.uenc (seedToScalar M vSeed * (seedToScalar M eSeed % Lnat) % Lnat)
  rw [mul_mod_absorb, mul_mod_absorb, Nat.mul_comm]

theorem createKeypairFromScalar_none_iff (M : NobleModel) (s : Nat)
    (pk : List Nat) (hpk : pk.length = 32) :
    (createKeypairFromScalar M s pk = none ↔
      pubkeyOfSeed M (bigIntToBytesLE s 32) ≠ pk) := by
  unfold createKeypairFromScalar keypairFromSecretKey
  have hlen : (bigIntToBytesLE s 32 ++ pk).length = 64 := by
    simp [bigIntToBytesLE_length, hpk]
  have htake : (bigIntToBytesLE s 32 ++ pk).take 32 = bigIntToBytesLE s 32 :=
    List.take_left' (bigIntToBytesLE_length 32 s)
  have hdrop : (bigIntToBytesLE s 32 ++ pk).drop 32 = pk := by
    have h := List.drop_left (bigIntToBytesLE s 32) pk
    rwa [bigIntToBytesLE_length] at h
  rw [if_neg (by simp [hlen]), htake, hdrop]
  by_cases h : pk = pubkeyOfSeed M (bigIntToBytesLE s 32)
  · rw [if_neg (by simp [h])]
    constructor
    · intro hcontra
      exact absurd hcontra (by simp)
    · intro hne
      exact absurd h.symm hne
  · rw [if_pos h]
    constructor
    · intro _ he
      exact h he.symm
    · intro _
      rfl

/-- C1 (code bug): the claimed spendability is exactly what the scalar-form
derivation achieves — for every honest meta-address the receiver's stealth
scalar `(s_spend + t) mod L` generates byte-for-byte the sender's
`stealthPubkey` (first three conjuncts) — but `deriveStealthKeypair` does not
return that keypair: `createKeypairFromScalar` hands
`[le_bytes(scalar) ∥ pubkey]` to `Keypair.fromSecretKey`, whose default
validation re-derives the public key from the scalar bytes *as a seed* and
throws `provided secretKey is invalid` on mismatch (fourth conjunct is that
exact characterization of the throw); at the concrete model instance the
mismatch occurs and the derivation throws instead of returning the keypair
(final conjunct). -/
theorem spendability_bug :
    (∀ (M : NobleModel) (meta : StealthMetaAddress) (vSeed sSeed eSeed : List Nat),
      meta.viewingPubkey = pubkeyOfSeed M vSeed →
      meta.spendingPubkey = pubkeyOfSeed M sSeed →
      ∃ res scalar,
        computeStealthAddressInternal M meta eSeed = some res ∧
        deriveStealthScalar M vSeed sSeed res.ephemeralPubkey = some scalar ∧
        M.compress (scalar % Lnat) = res.stealthPubkey ∧
        (deriveStealthKeypair M vSeed sSeed res.ephemeralPubkey = none ↔
          pubkeyOfSeed M (bigIntToBytesLE scalar 32) ≠ res.stealthPubkey)) ∧
    deriveStealthKeypair cModel [0] [1] (pubkeyOfSeed cModel [2]) = none := by
  constructor
  · intro M meta vSeed sSeed eSeed hv hs
    have hdecS : M.decompress (pubkeyOfSeed M sSeed)
        = some (seedToScalar M sSeed % Lnat) :=
      M.decompress_compress _ (Nat.mod_lt _ Lnat_pos)
    have hconvV := ed25519PubToX25519_pubkeyOfSeed M vSeed
    have hconvE := ed25519PubToX25519_pubkeyOfSeed M eSeed
    have hpk : M.compress (((seedToScalar M sSeed +
        bytesToBigInt (M.sha256 (M.xmul (ed25519SeedToX25519Priv M eSeed)
          (M.uenc (seedToScalar M vSeed % Lnat)))) % Lnat) % Lnat) % Lnat)
        = M.compress ((seedToScalar M sSeed % Lnat +
        bytesToBigInt (M.sha256 (M.xmul (ed25519SeedToX25519Priv M eSeed)
          (M.uenc (seedToScalar M vSeed % Lnat)))) % Lnat % Lnat) % Lnat) := by
      congr 1
      rw [Nat.mod_mod_of_dvd _ dvd_rfl, Nat.add_mod]
    refine ⟨⟨M.compress ((seedToScalar M sSeed % Lnat +
        bytesToBigInt (M.sha256 (M.xmul (ed25519SeedToX25519Priv M eSeed)
          (M.uenc (seedToScalar M vSeed % Lnat)))) % Lnat % Lnat) % Lnat),
      pubkeyOfSeed M eSeed,
      (M.sha256 (M.xmul (ed25519SeedToX25519Priv M eSeed)
        (M.uenc (seedToScalar M vSeed % Lnat)))).headD 0,
      eSeed,
      M.xmul (ed25519SeedToX25519Priv M eSeed)
        (M.uenc (seedToScalar M vSeed % Lnat))⟩,
      (seedToScalar M sSeed +
        bytesToBigInt (M.sha256 (M.xmul (ed25519SeedToX25519Priv M eSeed)
          (M.uenc (seedToScalar M vSeed % Lnat)))) % Lnat) % Lnat,
      ?_, ?_, ?_, ?_⟩
    · simp only [computeStealthAddressInternal, hv, hs, hconvV, hdecS]
    · simp only [deriveStealthScalar, hconvE]
      rw [← ecdh_agree M vSeed eSeed]
    · exact hpk
    · dsimp only
      simp only [deriveStealthKeypair, hconvE]
      rw [← ecdh_agree M vSeed eSeed,
        createKeypairFromScalar_none_iff M _ _ (M.compress_len _), hpk]
  · decide

/-- C5: `checkViewTag` returns exactly the Boolean equality between the first
byte of SHA-256 of the recomputed X25519 shared secret and the announced
tag, and every announcement produced by `computeStealthAddressInternal`
against this recipient's meta-address passes the check. -/
theorem checkViewTag_spec (M : NobleModel) (meta : StealthMetaAddress)
    (vSeed sSeed eSeed ephPub : List Nat) (v : Int)
    (hv : meta.viewingPubkey = pubkeyOfSeed M vSeed)
    (hs : meta.spendingPubkey = pubkeyOfSeed M sSeed) :
    (∀ ss, sharedSecretOf M vSeed ephPub = some ss →
        checkViewTag M vSeed ephPub v =
          some ((((M.sha256 ss).headD 0 : Nat) : Int) == v)) ∧
    (∀ res, computeStealthAddressInternal M meta eSeed = some res →
        checkViewTag M vSeed res.ephemeralPubkey (res.viewTag : Int) = some true) := by
  constructor
  · intro ss hss
    unfold sharedSecretOf at hss
    cases hconv : ed25519PubToX25519 M ephPub with
    | none => rw [hconv] at hss; simp at hss
    | some x =>
      rw [hconv] at hss
      simp only [Option.map_some'] at hss
      injection hss with hss
      subst hss
      unfold checkViewTag
      rw [hconv]
  · intro res hres
    have hdecS : M.decompress (pubkeyOfSeed M sSeed)
        = some (seedToScalar M sSeed % Lnat) :=
      M.decompress_compress _ (Nat.mod_lt _ Lnat_pos)
    have hconvV := ed25519PubToX25519_pubkeyOfSeed M vSeed
    simp only [computeStealthAddressInternal, hv, hs, hconvV, hdecS] at hres
    injection hres with hres
    subst hres
    dsimp only
    simp only [checkViewTag, ed25519PubToX25519_pubkeyOfSeed M eSeed]
    rw [← ecdh_agree M vSeed eSeed]
    simp

/-- C6 (code bug): the filtering half of the claim holds — an announcement
whose view-tag check returns `false`, or whose recomputed expected address
differs from the claimed one, is skipped silently and the scan continues
(first two conjuncts) — but the emission half is false on the code: on an
announcement that passes the view-tag check and the address check with a
positive balance, the scan reaches `deriveKeypair`, whose
`Keypair.fromSecretKey` validation throws, so `scanAnnouncements` aborts
with an error (`none`) instead of emitting the `DiscoveredPayment` (final
conjunct, a concrete genuinely-matching announcement built from
`computeStealthAddressInternal`). -/
theorem scanner_skip_and_throw :
    (∀ (M : NobleModel) (keys : StealthKeys) (balanceOf : List Nat → Int)
        (a : StealthAnnouncement) (rest : List StealthAnnouncement),
      checkViewTag M keys.viewingPrivkey a.ephemeralPubkey a.viewTag
          = some false →
      scanAnnouncements M keys balanceOf (a :: rest)
        = scanAnnouncements M keys balanceOf rest) ∧
    (∀ (M : NobleModel) (keys : StealthKeys) (balanceOf : List Nat → Int)
        (a : StealthAnnouncement) (rest : List StealthAnnouncement)
        (expected : List Nat),
      checkViewTag M keys.viewingPrivkey a.ephemeralPubkey a.viewTag
          = some true →
      computeExpectedStealthAddress M keys.viewingPrivkey
          keys.metaAddress.spendingPubkey a.ephemeralPubkey = some expected →
      expected ≠ a.stealthAddress →
      scanAnnouncements M keys balanceOf (a :: rest)
        = scanAnnouncements M keys balanceOf rest) ∧
    (computeStealthAddressInternal cModel
        ⟨pubkeyOfSeed cModel [0], pubkeyOfSeed cModel [1]⟩ [2]).map
      (fun res => scanAnnouncements cModel
        ⟨[0], [1], ⟨pubkeyOfSeed cModel [0], pubkeyOfSeed cModel [1]⟩⟩
        (fun _ => 1)
        [⟨res.ephemeralPubkey, (res.viewTag : Int), res.stealthPubkey⟩])
      = some none := by
  refine ⟨?_, ?_, ?_⟩
  · intro M keys balanceOf a rest htag
    simp [scanAnnouncements, htag]
  · intro M keys balanceOf a rest expected htag hexp hne
    simp [scanAnnouncements, htag, hexp, hne]
  · decide

/-- Evaluation witness for C1: the theorem's quantified part applied at the
concrete model instance and concrete seeds, hypotheses discharged by `rfl`. -/
theorem spendability_bug_witness :
    (∃ res scalar,
      computeStealthAddressInternal cModel
        ⟨pubkeyOfSeed cModel [0], pubkeyOfSeed cModel [1]⟩ [2] = some res ∧
      deriveStealthScalar cModel [0] [1] res.ephemeralPubkey = some scalar ∧
      cModel.compress (scalar % Lnat) = res.stealthPubkey ∧
      (deriveStealthKeypair cModel [0] [1] res.ephemeralPubkey = none ↔
        pubkeyOfSeed cModel (bigIntToBytesLE scalar 32) ≠ res.stealthPubkey)) ∧
    deriveStealthKeypair cModel [0] [1] (pubkeyOfSeed cModel [2]) = none :=
  ⟨spendability_bug.1 cModel
    ⟨pubkeyOfSeed cModel [0], pubkeyOfSeed cModel [1]⟩ [0] [1] [2] rfl rfl,
    spendability_bug.2⟩

/-- Evaluation witness for C5 at the concrete model instance. -/
theorem checkViewTag_spec_witness :
    (∀ ss, sharedSecretOf cModel [0] (pubkeyOfSeed cModel [2]) = some ss →
        checkViewTag cModel [0] (pubkeyOfSeed cModel [2]) 0 =
          some ((((cModel.sha256 ss).headD 0 : Nat) : Int) == 0)) ∧
    (∀ res, computeStealthAddressInternal cModel
        ⟨pubkeyOfSeed cModel [0], pubkeyOfSeed cModel [1]⟩ [2] = some res →
        checkViewTag cModel [0] res.ephemeralPubkey (res.viewTag : Int)
          = some true) :=
  checkViewTag_spec cModel ⟨pubkeyOfSeed cModel [0], pubkeyOfSeed cModel [1]⟩
    [0] [1] [2] (pubkeyOfSeed cModel [2]) 0 rfl rfl

/-- Evaluation witness for C6 at the concrete model instance: the silent-skip
conjunct applied to a one-element announcement list whose view tag does not
match, the hypothesis discharged by `decide`. -/
theorem scanner_skip_and_throw_witness :
    scanAnnouncements cModel
        ⟨[0], [1], ⟨pubkeyOfSeed cModel [0], pubkeyOfSeed cModel [1]⟩⟩
        (fun _ => 1) [⟨pubkeyOfSeed cModel [2], 5, List.replicate 32 0⟩] =
      scanAnnouncements cModel
        ⟨[0], [1], ⟨pubkeyOfSeed cModel [0], pubkeyOfSeed cModel [1]⟩⟩
        (fun _ => 1) [] :=
  scanner_skip_and_throw.1 cModel
    ⟨[0], [1], ⟨pubkeyOfSeed cModel [0], pubkeyOfSeed cModel [1]⟩⟩
    (fun _ => 1) ⟨pubkeyOfSeed cModel [2], 5, List.replicate 32 0⟩ []
    (by decide)

theorem add_mod_absorb (x y : Nat) :
    (x + y) % Lnat = (x + y % Lnat) % Lnat := by
  rw [Nat.add_mod x y, Nat.add_mod x (y % Lnat), Nat.mod_mod_of_dvd y dvd_rfl]

/-- Verification succeeds on a well-formed signature `R ∥ le(s)` with
`s = (r + k·a) mod L` under the key `compress a`. -/
theorem nobleVerify_ok (M : NobleModel) (message : List Nat) (r a : Nat)
    (hr : r < Lnat) (ha : a < Lnat) :
    nobleVerify M
      (M.compress r ++ bigIntToBytesLE
        ((r + bytesToBigIntLE (M.sha512 (M.compress r ++ M.compress a ++
          message)) % Lnat * a) % Lnat) 32)
      message (M.compress a) = true := by
  set s := (r + bytesToBigIntLE (M.sha512 (M.compress r ++ M.compress a ++
    message)) % Lnat * a) % Lnat with hsdef
  have hs_lt : s < Lnat := by
    rw [hsdef]
    exact Nat.mod_lt _ Lnat_pos
  have htake : (M.compress r ++ bigIntToBytesLE s 32).take 32
      = M.compress r := by
    have h := List.take_left (M.compress r) (bigIntToBytesLE s 32)
    rwa [M.compress_len] at h
  have hdrop : (M.compress r ++ bigIntToBytesLE s 32).drop 32
      = bigIntToBytesLE s 32 := by
    have h := List.drop_left (M.compress r) (bigIntToBytesLE s 32)
    rwa [M.compress_len] at h
  have hround : bytesToBigIntLE (bigIntToBytesLE s 32) = s :=
    bytesToBigIntLE_bigIntToBytesLE 32 s (lt_trans hs_lt Lnat_lt_pow)
  simp only [nobleVerify, htake, hdrop, M.decompress_compress r hr,
    M.decompress_compress a ha, hround]
  rw [if_neg (by omega : ¬ s ≥ Lnat)]
  simp only [decide_eq_true_eq]
  rw [hsdef, Nat.mod_mod_of_dvd _ dvd_rfl, add_mod_absorb]

/-- Soundness of the modelled seed-based signer: a `nobleSign` signature
verifies under the public key derived from the same seed. -/
theorem nobleSign_verifies (M : NobleModel) (message seed : List Nat) :
    nobleVerify M (nobleSign M message seed) message (edPubkeyOfSeed M seed)
      = true :=
  nobleVerify_ok M message
    (bytesToBigIntLE (M.sha512 ((M.sha512 seed).drop 32 ++ message)) % Lnat)
    (bytesToBigIntLE (clampBytes ((M.sha512 seed).take 32)) % Lnat)
    (Nat.mod_lt _ Lnat_pos) (Nat.mod_lt _ Lnat_pos)

/-- C2 (code bug): `signWithScalar` passes the scalar's little-endian bytes
to the seed-based `ed25519.sign` — the prefix half of the extended key it
builds is discarded by `extendedKey.slice(0, 32)`.  The resulting signature
is an ordinary Ed25519 signature for the *seed* `le_bytes(scalar)`: it
verifies under the re-derived key `clamp(SHA-512(le_bytes(scalar))[0..32])·B`
for every model instance (second conjunct), and at the concrete instance it
fails to verify under the claimed public key `A = scalar·B` for the failing
input `scalar = 1`, `message = []` (third conjunct) — the claim that it
verifies under `A` is false on the code. -/
theorem signWithScalar_bug :
    (∀ (M : NobleModel) (message : List Nat) (scalar : Nat) (pubkey : List Nat),
        signWithScalar M message scalar pubkey =
          nobleSign M message (bigIntToBytesLE scalar 32)) ∧
    (∀ (M : NobleModel) (message seed : List Nat),
        nobleVerify M (nobleSign M message seed) message (edPubkeyOfSeed M seed)
          = true) ∧
    nobleVerify cModel (signWithScalar cModel [] 1 (cModel.compress 1)) []
      (cModel.compress 1) = false := by
  refine ⟨?_, nobleSign_verifies, ?_⟩
  · intro M message scalar pubkey
    simp only [signWithScalar]
    rw [List.take_left' (bigIntToBytesLE_length 32 scalar)]
  · decide

/-- C7: meta-address codec round-trip.  Encoding a meta-address with two
32-byte keys succeeds, decoding the result returns the same two byte
strings, and encoding is deterministic (a function of the two fields). -/
theorem metaAddress_roundtrip (E : B58) (meta : StealthMetaAddress)
    (h1 : meta.viewingPubkey.length = 32) (h2 : meta.spendingPubkey.length = 32)
    (hb : ∀ x ∈ meta.viewingPubkey ++ meta.spendingPubkey, x < 256) :
    (∀ meta' : StealthMetaAddress, meta'.viewingPubkey = meta.viewingPubkey →
        meta'.spendingPubkey = meta.spendingPubkey →
        encodeMetaAddress E meta' = encodeMetaAddress E meta) ∧
    ∃ s, encodeMetaAddress E meta = .ok s ∧
      decodeMetaAddress E s = .ok meta := by
  constructor
  · intro meta' hv' hs'
    unfold encodeMetaAddress
    rw [hv', hs']
  · refine ⟨stSol ++ E.b58encode (meta.viewingPubkey ++ meta.spendingPubkey),
      ?_, ?_⟩
    · unfold encodeMetaAddress
      rw [if_neg (by omega), if_neg (by omega)]
    · unfold decodeMetaAddress
      rw [if_neg (by
        simp only [ List.isPrefixOf_iff_prefix]
        exact fun h => h (List.prefix_append stSol _)),
        List.drop_left, E.decode_encode _ hb]
      show (if (meta.viewingPubkey ++ meta.spendingPubkey).length ≠ 64 then
            (Except.error EncErr.badLength : Except EncErr StealthMetaAddress)
          else Except.ok ⟨(meta.viewingPubkey ++ meta.spendingPubkey).take 32,
            (meta.viewingPubkey ++ meta.spendingPubkey).drop 32⟩)
          = Except.ok meta
      rw [if_neg (by simp [h1, h2])]
      have htake : (meta.viewingPubkey ++ meta.spendingPubkey).take 32
          = meta.viewingPubkey := List.take_left' h1
      have hdrop : (meta.viewingPubkey ++ meta.spendingPubkey).drop 32
          = meta.spendingPubkey := by
        have h := List.drop_left meta.viewingPubkey meta.spendingPubkey
        rwa [h1] at h
      rw [htake, hdrop]

/-- Evaluation witness for C7 at the concrete Base58 instance. -/
theorem metaAddress_roundtrip_witness :
    (∀ meta' : StealthMetaAddress,
        meta'.viewingPubkey = List.replicate 32 1 →
        meta'.spendingPubkey = List.replicate 32 2 →
        encodeMetaAddress cB58 meta' =
          encodeMetaAddress cB58 ⟨List.replicate 32 1, List.replicate 32 2⟩) ∧
    ∃ s, encodeMetaAddress cB58 ⟨List.replicate 32 1, List.replicate 32 2⟩
        = .ok s ∧
      decodeMetaAddress cB58 s = .ok ⟨List.replicate 32 1, List.replicate 32 2⟩ :=
  metaAddress_roundtrip cB58 ⟨List.replicate 32 1, List.replicate 32 2⟩
    (by decide) (by decide) (by decide)

/-- C8: `decodeMetaAddress` rejects every string that lacks the `st:sol:`
header, whose body fails Base58 decoding, or whose decoded payload is not
exactly 64 bytes. -/
theorem metaAddress_decode_rejects (E : B58) (s : List Char)
    (h : ¬ stSol.isPrefixOf s ∨ E.b58decode (s.drop stSol.length) = none ∨
        ∃ bs, E.b58decode (s.drop stSol.length) = some bs ∧ bs.length ≠ 64) :
    ∃ e, decodeMetaAddress E s = .error e := by
  unfold decodeMetaAddress
  by_cases hp : stSol.isPrefixOf s
  · rcases h with h | h | ⟨bs, hbs, hlen⟩
    · exact absurd hp h
    · rw [if_neg (by simp [hp]), h]
      exact ⟨_, rfl⟩
    · rw [if_neg (by simp [hp]), hbs]
      show ∃ e, (if bs.length ≠ 64 then
            (Except.error EncErr.badLength : Except EncErr StealthMetaAddress)
          else Except.ok ⟨bs.take 32, bs.drop 32⟩) = Except.error e
      rw [if_pos hlen]
      exact ⟨_, rfl⟩
  · rw [if_pos (by simpa using hp)]
    exact ⟨_, rfl⟩

/-- Evaluation witness for C8: the three malformed inputs named by the
specification, at the concrete Base58 instance. -/
theorem metaAddress_decode_rejects_witness :
    (∃ e, decodeMetaAddress cB58 "invalid".toList = .error e) ∧
    (∃ e, decodeMetaAddress cB58 "st:sol:".toList = .error e) ∧
    (∃ e, decodeMetaAddress cB58 "st:eth:ABC".toList = .error e) :=
  ⟨metaAddress_decode_rejects cB58 "invalid".toList (by left; decide),
    metaAddress_decode_rejects cB58 "st:sol:".toList
      (by right; right; exact ⟨[], by decide, by decide⟩),
    metaAddress_decode_rejects cB58 "st:eth:ABC".toList (by left; decide)⟩

theorem jLookup_t (e vt s : Json) :
    jLookup [("v".toList, Json.num 1), ("t".toList, Json.str "STEALTH".toList),
      ("e".toList, e), ("vt".toList, vt), ("s".toList, s)] "t".toList
    = some (Json.str "STEALTH".toList) := by
  simp +decide [jLookup]

theorem jLookup_e (e vt s : Json) :
    jLookup [("v".toList, Json.num 1), ("t".toList, Json.str "STEALTH".toList),
      ("e".toList, e), ("vt".toList, vt), ("s".toList, s)] "e".toList
    = some e := by
  simp +decide [jLookup]

theorem jLookup_vt (e vt s : Json) :
    jLookup [("v".toList, Json.num 1), ("t".toList, Json.str "STEALTH".toList),
      ("e".toList, e), ("vt".toList, vt), ("s".toList, s)] "vt".toList
    = some vt := by
  simp +decide [jLookup]

theorem jLookup_s (e vt s : Json) :
    jLookup [("v".toList, Json.num 1), ("t".toList, Json.str "STEALTH".toList),
      ("e".toList, e), ("vt".toList, vt), ("s".toList, s)] "s".toList
    = some s := by
  simp +decide [jLookup]

/-- Well-formed announcement JSON decodes to the carried fields; in
particular the `vt` value is copied verbatim with no range check. -/
theorem deserializeAnnouncement_wellFormed {W : Type} (J : JsonWire W)
    (E : B58) (w : W) (es ss : List Char) (n : Int) (eb sb : List Nat)
    (hw : J.parse w = some (Json.obj
      [("v".toList, Json.num 1), ("t".toList, Json.str "STEALTH".toList),
       ("e".toList, Json.str es), ("vt".toList, Json.num n),
       ("s".toList, Json.str ss)]))
    (hde : E.b58decode es = some eb)
    (hds : E.b58decode ss = some sb)
    (hsb32 : sb.length = 32) :
    deserializeAnnouncement J E w = some ⟨eb, n, sb⟩ := by
  unfold deserializeAnnouncement deserializeAnnouncementBody
  rw [hw]
  simp only [jGet, jLookup_t, jLookup_e, jLookup_vt, jLookup_s]
  simp +decide [hde, hds, hsb32]

/-- C9: announcement codec round-trip.  For an announcement with byte-valued
fields, a 32-byte stealth address, and a view tag in `0..255`, decoding the
serialization returns the same three semantic fields, and re-serializing the
decoded announcement is byte-equal to the first serialization. -/
theorem announcement_roundtrip {W : Type} (J : JsonWire W) (E : B58)
    (a : StealthAnnouncement)
    (he : ∀ x ∈ a.ephemeralPubkey, x < 256)
    (hsb : ∀ x ∈ a.stealthAddress, x < 256)
    (hslen : a.stealthAddress.length = 32)
    (hvt : 0 ≤ a.viewTag ∧ a.viewTag ≤ 255) :
    deserializeAnnouncement J E (serializeAnnouncement J E a) = some a ∧
    ∀ a', deserializeAnnouncement J E (serializeAnnouncement J E a) = some a' →
      serializeAnnouncement J E a' = serializeAnnouncement J E a := by
  have hmain : deserializeAnnouncement J E (serializeAnnouncement J E a)
      = some a :=
    deserializeAnnouncement_wellFormed J E _ _ _ _ _ _
      (J.parse_stringify _) (E.decode_encode _ he) (E.decode_encode _ hsb)
      hslen
  refine ⟨hmain, fun a' ha' => ?_⟩
  rw [hmain] at ha'
  injection ha' with h
  rw [h]

/-- Evaluation witness for C9 at the concrete wire and Base58 instances. -/
theorem announcement_roundtrip_witness :
    deserializeAnnouncement cWire cB58 (serializeAnnouncement cWire cB58
        ⟨List.replicate 32 7, 42, List.replicate 32 9⟩) =
      some ⟨List.replicate 32 7, 42, List.replicate 32 9⟩ ∧
    ∀ a', deserializeAnnouncement cWire cB58 (serializeAnnouncement cWire cB58
        ⟨List.replicate 32 7, 42, List.replicate 32 9⟩) = some a' →
      serializeAnnouncement cWire cB58 a' = serializeAnnouncement cWire cB58
        ⟨List.replicate 32 7, 42, List.replicate 32 9⟩ :=
  announcement_roundtrip cWire cB58 ⟨List.replicate 32 7, 42, List.replicate 32 9⟩
    (by decide) (by decide) (by decide) (by decide)

/-- C4 (counterexample): a well-formed announcement JSON object whose `vt`
field is `300` — outside `0..255` — is decoded by `deserializeAnnouncement`
into a structured announcement carrying `viewTag = 300`, not rejected. -/
theorem announcement_vt_out_of_range_accepted :
    deserializeAnnouncement cWire cB58 (Json.obj
      [("v".toList, Json.num 1), ("t".toList, Json.str "STEALTH".toList),
       ("e".toList, Json.str (cB58.b58encode (List.replicate 32 7))),
       ("vt".toList, Json.num 300),
       ("s".toList, Json.str (cB58.b58encode (List.replicate 32 9)))]) =
      some ⟨List.replicate 32 7, 300, List.replicate 32 9⟩ := by
  decide

/-- C4 (amended): `deserializeAnnouncement` performs no range check on `vt`.
For every parseable announcement object with tag `STEALTH`, decodable `e`,
decodable 32-byte `s`, and integer `vt = n` — of any magnitude, in
particular outside `0..255` — it returns a structured announcement carrying
`n` verbatim. -/
theorem announcement_vt_passthrough {W : Type} (J : JsonWire W) (E : B58)
    (w : W) (es ss : List Char) (n : Int) (eb sb : List Nat)
    (hw : J.parse w = some (Json.obj
      [("v".toList, Json.num 1), ("t".toList, Json.str "STEALTH".toList),
       ("e".toList, Json.str es), ("vt".toList, Json.num n),
       ("s".toList, Json.str ss)]))
    (hde : E.b58decode es = some eb)
    (hds : E.b58decode ss = some sb)
    (hsb32 : sb.length = 32) :
    deserializeAnnouncement J E w = some ⟨eb, n, sb⟩ :=
  deserializeAnnouncement_wellFormed J E w es ss n eb sb hw hde hds hsb32

/-- Evaluation witness for C4's amended claim: the passthrough theorem
applied at `vt = 999`. -/
theorem announcement_vt_passthrough_witness :
    deserializeAnnouncement cWire cB58 (Json.obj
      [("v".toList, Json.num 1), ("t".toList, Json.str "STEALTH".toList),
       ("e".toList, Json.str (cB58.b58encode (List.replicate 32 3))),
       ("vt".toList, Json.num 999),
       ("s".toList, Json.str (cB58.b58encode (List.replicate 32 4)))]) =
      some ⟨List.replicate 32 3, 999, List.replicate 32 4⟩ :=
  announcement_vt_passthrough cWire cB58 _ _ _ 999 _ _ rfl
    (cB58.decode_encode _ (by decide)) (cB58.decode_encode _ (by decide))
    (by decide)

/-- C10: `deserializeAnnouncement` is total — it returns a structured
announcement or `null`, never propagating an exception: the whole decoding
body runs inside `try { ... } catch { return null; }`, so every error of the
body maps to `null`. -/
theorem announcement_decode_total {W : Type} (J : JsonWire W) (E : B58)
    (w : W) :
    ((∃ a, deserializeAnnouncement J E w = some a) ∨
      deserializeAnnouncement J E w = none) ∧
    (∀ e, deserializeAnnouncementBody J E w = .error e →
      deserializeAnnouncement J E w = none) := by
  constructor
  · cases h : deserializeAnnouncement J E w with
    | none => exact Or.inr rfl
    | some a => exact Or.inl ⟨a, rfl⟩
  · intro e he
    unfold deserializeAnnouncement
    rw [he]

theorem decompressEd_y_lt (b : List Nat) (x y : Nat)
    (h : Ed.decompressEd b = some (x, y)) : y < Ed.P := by
  unfold Ed.decompressEd at h
  split at h
  · simp at h
  · dsimp only at h
    split at h
    · simp at h
    · split at h
      · simp at h
      · split at h
        · simp at h
        · rename_i hy hvalid hzero
          simp only [Option.some.injEq, Prod.mk.injEq] at h
          omega

/-- C3 (amended): the Ed25519→X25519 conversion fails exactly on inputs
that do not decompress (non-canonical or off-curve bytes) or that
decompress to a point with `y = 1` (the identity, where `Fp.inv(0)`
throws).  Small-order points with `y ≠ 1` are not rejected. -/
theorem pubToX25519Impl_none_iff (b : List Nat) :
    Ed.ed25519PubToX25519Impl b = none ↔
      Ed.decompressEd b = none ∨ ∃ x, Ed.decompressEd b = some (x, 1) := by
  have hP : Ed.P
      = 57896044618658097711785492504343953926634992332820282019728792003956564819949 := by
    norm_num [Ed.P]
  unfold Ed.ed25519PubToX25519Impl
  cases hd : Ed.decompressEd b with
  | none => simp
  | some pt =>
    obtain ⟨x, y⟩ := pt
    have hy := decompressEd_y_lt b x y hd
    dsimp only
    constructor
    · intro h
      by_cases hden : (1 + Ed.P - y) % Ed.P = 0
      · have hy1 : y = 1 := by
          rw [hP] at hden hy
          omega
        exact Or.inr ⟨x, by rw [hy1]⟩
      · rw [if_neg hden] at h
        simp at h
    · intro h
      rcases h with h | ⟨x', hx⟩
      · simp at h
      · simp only [Option.some.injEq, Prod.mk.injEq] at hx
        obtain ⟨hxx, hy1⟩ := hx
        subst hy1
        rw [if_pos (by rw [show 1 + Ed.P - 1 = Ed.P from by omega, Nat.mod_self])]

/-- C3 (counterexample): the canonical encoding of the order-2 point
`(0, −1)` — little-endian bytes of `p − 1` — decompresses successfully, is a
small-order point (doubling it gives the identity `(0, 1)`) distinct from
the identity, and `ed25519PubToX25519` **converts it successfully** to
`u = 0` (32 zero bytes) instead of failing with `InvalidPoint` as the claim
requires. -/
theorem smallOrder_point_accepted :
    Ed.ed25519PubToX25519Impl (bigIntToBytesLE (Ed.P - 1) 32)
      = some (List.replicate 32 0) ∧
    Ed.decompressEd (bigIntToBytesLE (Ed.P - 1) 32) = some (0, Ed.P - 1) ∧
    Ed.edAdd (0, Ed.P - 1) (0, Ed.P - 1) = (0, 1) ∧
    (0, Ed.P - 1) ≠ ((0, 1) : Nat × Nat) := by
  decide
